import Mathlib

/-!
Verification of the MCP server-management module
(`src-tauri/src/commands/mcp.rs`).

The module shells out to an external `claude mcp` command and owns one JSON
sidecar file (`.mcp.json`).  We embed the pure computational core: the
list-output parser (`mcp_list`), the detail-output parser (`mcp_get`), the
argument-vector construction of `mcp_add`, the read/toggle/save logic on the
sidecar configuration (`mcp_read_project_config`, `mcp_toggle_disabled`), and
the Claude-Desktop import loop (`mcp_add_from_claude_desktop`).  External
effects (process execution, the filesystem) are passed in explicitly: a
command invocation becomes an `Except`-valued argument holding the stdout text
or the error, the sidecar file becomes an explicit value, and the written
configuration is returned instead of stored.

Strings are modelled as `List Char` (`Str`); Rust's byte-indexed slicing at a
`find(':')` position coincides with char-list splitting because `:` is ASCII.
Whitespace is Lean's `Char.isWhitespace`, which agrees with Rust's
`char::is_whitespace` on ASCII input.
-/

deriving instance DecidableEq for Except

namespace Mcp

/-- Character-list model of Rust `String` / `&str`. -/
abbrev Str := List Char

/-- Rust `char::is_whitespace` (restricted to the ASCII classes). -/
def isWs (c : Char) : Bool := c.isWhitespace

/-- Rust `str::trim_start`. -/
def trimLeft (s : Str) : Str := s.dropWhile isWs

/-- Rust `str::trim_end`. -/
def trimRight (s : Str) : Str := (s.reverse.dropWhile isWs).reverse

/-- Rust `str::trim`. -/
def trim (s : Str) : Str := trimRight (trimLeft s)

/-- Split a line at its first `:`.  `some (pre, post)` models
`line.find(':') = Some(p)` with `pre = line[..p]` and `post = line[p+1..]`;
`none` models a line with no colon. -/
def splitAtFirstColon : Str → Option (Str × Str)
  | [] => none
  | c :: rest =>
    if c = ':' then some ([], rest)
    else
      match splitAtFirstColon rest with
      | some (pre, post) => some (c :: pre, post)
      | none => none

/-- Rust `str::split(sep)` specialised to a single separator char (used via
`str::lines`, i.e. splitting on `'\n'`). -/
def splitOnChar (sep : Char) : Str → List Str
  | [] => [[]]
  | c :: rest =>
    if c = sep then [] :: splitOnChar sep rest
    else
      match splitOnChar sep rest with
      | [] => [[c]]
      | w :: ws => (c :: w) :: ws

/-- Rust `Vec::<String>::join(" ")`. -/
def joinSpace : List Str → Str
  | [] => []
  | [p] => p
  | p :: q :: rest => p ++ ' ' :: joinSpace (q :: rest)

/-- Fuel-driven core of `splitWs`; each step consumes at least one char, so
any fuel of at least the length of the string computes the full split.  The
fuel makes the recursion structural, so terms reduce definitionally. -/
def splitWsAux : Nat → Str → List Str
  | _, [] => []
  | 0, _ => []
  | fuel + 1, c :: rest =>
    if isWs c then splitWsAux fuel rest
    else (c :: rest.takeWhile (fun x => !isWs x)) ::
      splitWsAux fuel (rest.dropWhile (fun x => !isWs x))

/-- Rust `str::split_whitespace`: maximal non-whitespace runs, in order. -/
def splitWs (s : Str) : List Str := splitWsAux s.length s

/-- Fuel-driven core of `removeAll`; each step consumes at least one char. -/
def removeAllAux (pat : Str) : Nat → Str → Str
  | _, [] => []
  | 0, s => s
  | fuel + 1, c :: rest =>
    if pat ≠ [] ∧ pat.isPrefixOf (c :: rest) then
      removeAllAux pat fuel (rest.drop (pat.length - 1))
    else
      c :: removeAllAux pat fuel rest

/-- Rust `str::replace(pat, "")`: delete every leftmost non-overlapping
occurrence of `pat` (all `replace` calls in this module replace with the
empty string). -/
def removeAll (pat : Str) (s : Str) : Str := removeAllAux pat s.length s

/-- Server status information (struct `ServerStatus`). -/
structure ServerStatus where
  running : Bool
  error : Option Str
  last_checked : Option Nat
deriving DecidableEq

/-- Represents an MCP server (struct `MCPServer`).  The `env` HashMap is
modelled as an association list. -/
structure MCPServer where
  name : Str
  transport : Str
  command : Option Str
  args : List Str
  env : List (Str × Str)
  url : Option Str
  scope : Str
  is_active : Bool
  disabled : Bool
  status : ServerStatus
deriving DecidableEq

/-- Individual server configuration in `.mcp.json` (struct `MCPServerConfig`). -/
structure MCPServerConfig where
  command : Str
  args : List Str
  env : List (Str × Str)
  disabled : Bool
deriving DecidableEq

/-- MCP configuration for project scope (struct `MCPProjectConfig`); the
`mcpServers` HashMap is modelled as an association list with unique keys. -/
structure MCPProjectConfig where
  mcp_servers : List (Str × MCPServerConfig)
deriving DecidableEq

/-- Result of adding a server (struct `AddServerResult`). -/
structure AddServerResult where
  success : Bool
  message : Str
  server_name : Option Str
deriving DecidableEq

/-- Result for individual server import (struct `ImportServerResult`). -/
structure ImportServerResult where
  name : Str
  success : Bool
  error : Option Str
deriving DecidableEq

/-- Import result for multiple servers (struct `ImportResult`). -/
structure ImportResult where
  imported_count : Nat
  failed_count : Nat
  servers : List ImportServerResult
deriving DecidableEq

/-- HashMap lookup `config.mcp_servers.get(&name)` on the association-list
model. -/
def mapGet (m : List (Str × MCPServerConfig)) (k : Str) : Option MCPServerConfig :=
  (m.find? (fun p => p.1 == k)).map (·.2)

/-- HashMap `insert`: replace the entry if the key is present, else append. -/
def mapInsert : List (Str × MCPServerConfig) → Str → MCPServerConfig →
    List (Str × MCPServerConfig)
  | [], k, v => [(k, v)]
  | (k0, v0) :: rest, k, v =>
    if k0 = k then (k, v) :: rest else (k0, v0) :: mapInsert rest k v

/-- In-place mutation `config.mcp_servers.get_mut(&name)` followed by
setting the `disabled` field: update the (unique) entry for the key. -/
def setDisabled : List (Str × MCPServerConfig) → Str → Bool →
    List (Str × MCPServerConfig)
  | [], _, _ => []
  | (k0, v0) :: rest, k, d =>
    if k0 = k then (k0, { v0 with disabled := d }) :: rest
    else (k0, v0) :: setDisabled rest k d

/-- JSON values, modelling `serde_json::Value` (objects keep field order). -/
inductive JsonVal where
  | null
  | bool (b : Bool)
  | num (n : Int)
  | str (s : Str)
  | arr (elems : List JsonVal)
  | obj (fields : List (Str × JsonVal))

/-- Field lookup in a JSON object. -/
def jsonLookup (fields : List (Str × JsonVal)) (key : Str) : Option JsonVal :=
  (fields.find? (fun p => p.1 == key)).map (·.2)

/-- Rust `serde_json::Value::get(key)`: `none` on non-objects. -/
def jsonGet (v : JsonVal) (key : Str) : Option JsonVal :=
  match v with
  | .obj fields => jsonLookup fields key
  | _ => none

/-- Decode a JSON array of strings (serde for `Vec<String>`). -/
def decodeStrList : List JsonVal → Option (List Str)
  | [] => some []
  | .str s :: rest => (decodeStrList rest).map (s :: ·)
  | _ => none

/-- Decode a JSON object of strings (serde for a string-to-string HashMap). -/
def decodeStrMap : List (Str × JsonVal) → Option (List (Str × Str))
  | [] => some []
  | (k, .str s) :: rest => (decodeStrMap rest).map ((k, s) :: ·)
  | _ => none

/-- Serde-derived decoding of `MCPServerConfig`: `command` is required and
must be a string; `args`, `env`, `disabled` take their defaults when absent
but must have the right type when present; unknown fields are ignored. -/
def serverConfigFromJson : JsonVal → Option MCPServerConfig
  | .obj fields => do
    let command ← match jsonLookup fields ("command".data) with
      | some (.str s) => some s
      | _ => none
    let args ← match jsonLookup fields ("args".data) with
      | none => some []
      | some (.arr xs) => decodeStrList xs
      | some _ => none
    let env ← match jsonLookup fields ("env".data) with
      | none => some []
      | some (.obj fs) => decodeStrMap fs
      | some _ => none
    let disabled ← match jsonLookup fields ("disabled".data) with
      | none => some false
      | some (.bool b) => some b
      | some _ => none
    some ⟨command, args, env, disabled⟩
  | _ => none

/-- Decode the value of the `mcpServers` field entry by entry. -/
def decodeServerMap : List (Str × JsonVal) → Option (List (Str × MCPServerConfig))
  | [] => some []
  | (k, v) :: rest => do
    let c ← serverConfigFromJson v
    let cs ← decodeServerMap rest
    some ((k, c) :: cs)

/-- Serde-derived decoding of `MCPProjectConfig`: the renamed field
`mcpServers` is required and must be an object of server configs. -/
def projectConfigFromJson : JsonVal → Option MCPProjectConfig
  | .obj fields =>
    match jsonLookup fields ("mcpServers".data) with
    | some (.obj servers) => (decodeServerMap servers).map MCPProjectConfig.mk
    | _ => none
  | _ => none

/-- State of the sidecar file `.mcp.json` as seen by
`mcp_read_project_config`: absent, present but not syntactically valid JSON,
or present with a parsed JSON value. -/
inductive SidecarFile where
  | absent
  | invalidText
  | json (v : JsonVal)

/-- Reads `.mcp.json` (`mcp_read_project_config`): an absent file yields the
empty config, a present file that fails to deserialize yields an error, a
valid file yields the parsed config. -/
def mcp_read_project_config : SidecarFile → Except Str MCPProjectConfig
  | .absent => .ok ⟨[]⟩
  | .invalidText => .error ("Failed to parse .mcp.json".data)
  | .json v =>
    match projectConfigFromJson v with
    | some config => .ok config
    | none => .error ("Failed to parse .mcp.json".data)

/-- Empty project configuration. -/
def emptyConfig : MCPProjectConfig := ⟨[]⟩

/-- One step of the command scan inside `mcp_toggle_disabled`: on a trimmed
line starting with the command prefix, strip the prefix and split the
remainder on whitespace into command head and argument tail; other lines, and
a match whose remainder has no tokens, leave the state unchanged. -/
def toggleCmdStep (st : Str × List Str) (rawLine : Str) : Str × List Str :=
  let line := trim rawLine
  if ("Command:".data).isPrefixOf line then
    let full_command := trim (removeAll ("Command:".data) line)
    match splitWs full_command with
    | [] => st
    | c :: rest => (c, rest)
  else st

/-- Command and args extracted from the `claude mcp get` output inside
`mcp_toggle_disabled` (initial state: empty command, no args). -/
def parseToggleGet (output : Str) : Str × List Str :=
  (splitOnChar '\n' output).foldl toggleCmdStep ([], [])

/-- ASCII apostrophe, used in result messages. -/
def squote : Char := Char.ofNat 39

/-- Result message of `mcp_toggle_disabled`, interpolating the server name
and the new status word. -/
def toggleMsg (name : Str) (disabled : Bool) : Str :=
  "Server ".data ++ [squote] ++ name ++ [squote] ++ " has been ".data ++
    (if disabled then "disabled".data else "enabled".data)

/-- Core state change of `mcp_toggle_disabled`, given the already-read
config and the outcome of the `claude mcp get` fallback call: an existing
entry gets only its disabled flag updated; otherwise a new entry is created
from the parsed get output, or a minimal empty entry when the get call
failed. -/
def toggleCore (config : MCPProjectConfig) (getResult : Except Str Str)
    (name : Str) (disabled : Bool) : MCPProjectConfig :=
  match mapGet config.mcp_servers name with
  | some _ => ⟨setDisabled config.mcp_servers name disabled⟩
  | none =>
    match getResult with
    | .ok output =>
      let parsed := parseToggleGet output
      ⟨mapInsert config.mcp_servers name ⟨parsed.1, parsed.2, [], disabled⟩⟩
    | .error _ =>
      ⟨mapInsert config.mcp_servers name ⟨[], [], [], disabled⟩⟩

/-- Toggles the disabled status of an MCP server (`mcp_toggle_disabled`).
The read of the sidecar file, the `get` fallback invocation and the save are
passed in explicitly; on success the written configuration is returned next
to the result message. -/
def mcp_toggle_disabled (readResult : Except Str MCPProjectConfig)
    (getResult : Except Str Str)
    (saveResult : MCPProjectConfig → Except Str Str)
    (name : Str) (disabled : Bool) : Except Str (Str × MCPProjectConfig) :=
  match readResult with
  | .error e => .error e
  | .ok config =>
    let config2 := toggleCore config getResult name disabled
    match saveResult config2 with
    | .ok _ => .ok (toggleMsg name disabled, config2)
    | .error e => .error e

/-- Rust `str::contains(pat)`: the pattern occurs as a contiguous substring. -/
def containsSub (pat : Str) : Str → Bool
  | [] => pat.isEmpty
  | c :: rest => pat.isPrefixOf (c :: rest) || containsSub pat rest

/-- Record-start test of the list parser (outer loop): the line must contain
a colon and the trimmed text before the first colon must contain no path
separator (neither slash).  Returns the trimmed name and the raw text after
the colon.  Note that this outer test does not require the name to be
non-empty. -/
def startsRecord (line : Str) : Option (Str × Str) :=
  match splitAtFirstColon line with
  | none => none
  | some (pre, post) =>
    let potential_name := trim pre
    if !(potential_name.contains '/') && !(potential_name.contains '\\') then
      some (potential_name, post)
    else none

/-- Continuation-break test of the list parser (inner loop): a following
line ends the fold exactly when it contains a colon and the trimmed text
before the first colon is non-empty and free of path separators. -/
def breaksContinuation (line : Str) : Bool :=
  match splitAtFirstColon line with
  | none => false
  | some (pre, _) =>
    let n := trim pre
    !n.isEmpty && !(n.contains '/') && !(n.contains '\\')

/-- Inner while-loop of the list parser: fold trimmed continuation lines
into the current record until a line passes `breaksContinuation`; returns
the folded parts and the unconsumed remainder. -/
def collectContinuation : List Str → List Str × List Str
  | [] => ([], [])
  | l :: ls =>
    if breaksContinuation l then ([], l :: ls)
    else
      let r := collectContinuation ls
      (trim l :: r.1, r.2)

/-- Server record constructed by the list parser for one parsed entry:
transport and scope default to stdio and local, and the disabled flag comes
from the project config entry of the same name (false when absent). -/
def listRecord (config : MCPProjectConfig) (name : Str) (full_command : Str) :
    MCPServer :=
  { name := name
    transport := "stdio".data
    command := some full_command
    args := []
    env := []
    url := none
    scope := "local".data
    is_active := false
    disabled := ((mapGet config.mcp_servers name).map (·.disabled)).getD false
    status := ⟨false, none, none⟩ }

/-- Fuel-driven core of `parseListLines`; each step consumes at least one
line (`collectContinuation` only shortens the remainder), so any fuel of at
least the number of lines computes the full parse. -/
def parseListLinesAux (config : MCPProjectConfig) :
    Nat → List Str → List MCPServer
  | _, [] => []
  | 0, _ => []
  | fuel + 1, l :: ls =>
    match startsRecord l with
    | some nameAfter =>
      listRecord config nameAfter.1
          (joinSpace (trim nameAfter.2 :: (collectContinuation ls).1)) ::
        parseListLinesAux config fuel (collectContinuation ls).2
    | none => parseListLinesAux config fuel ls

/-- Line loop of the list parser (`mcp_list`), producing server stubs. -/
def parseListLines (config : MCPProjectConfig) (lines : List Str) :
    List MCPServer :=
  parseListLinesAux config lines.length lines

/-- Replace a failed config read by the empty config (the `unwrap_or_else`
fallback in `mcp_list` and `mcp_get`). -/
def configOrEmpty : Except Str MCPProjectConfig → MCPProjectConfig
  | .ok c => c
  | .error _ => emptyConfig

/-- Lists all configured MCP servers (`mcp_list`): a failed external command
is the error result; empty output or the no-servers sentinel yields no
servers; otherwise the trimmed output is parsed line by line against the
project config, a failed read of which degrades to the empty config. -/
def mcp_list (readResult : Except Str MCPProjectConfig)
    (listResult : Except Str Str) : Except Str (List MCPServer) :=
  match listResult with
  | .error e => .error e
  | .ok output =>
    let trimmed := trim output
    if containsSub ("No MCP servers configured".data) trimmed || trimmed.isEmpty then
      .ok []
    else
      .ok (parseListLines (configOrEmpty readResult) (splitOnChar '\n' trimmed))

/-- Parser state of `mcp_get` (its five mutable locals). -/
structure GetParseState where
  scope : Str
  transport : Str
  command : Option Str
  args : List Str
  url : Option Str
deriving DecidableEq

/-- Initial parser state of `mcp_get`. -/
def initGetState : GetParseState :=
  ⟨"local".data, "stdio".data, none, [], none⟩

/-- Keyword test of the scope cascade: the lowercased scope text contains
the given keyword as a substring. -/
def scopeHas (scope_part : Str) (key : Str) : Bool :=
  containsSub key (scope_part.map Char.toLower)

/-- One line of the `mcp_get` output parser: fixed-prefix recognition of
Scope, Type, Command, Args and URL lines on the trimmed line; unrecognized
lines (including the Environment block) are ignored. -/
def getStep (st : GetParseState) (rawLine : Str) : GetParseState :=
  let line := trim rawLine
  if ("Scope:".data).isPrefixOf line then
    let scope_part := trim (removeAll ("Scope:".data) line)
    if scopeHas scope_part ("local".data) then { st with scope := "local".data }
    else if scopeHas scope_part ("project".data) then
      { st with scope := "project".data }
    else if scopeHas scope_part ("user".data) || scopeHas scope_part ("global".data) then
      { st with scope := "user".data }
    else st
  else if ("Type:".data).isPrefixOf line then
    { st with transport := trim (removeAll ("Type:".data) line) }
  else if ("Command:".data).isPrefixOf line then
    { st with command := some (trim (removeAll ("Command:".data) line)) }
  else if ("Args:".data).isPrefixOf line then
    let args_str := trim (removeAll ("Args:".data) line)
    if !args_str.isEmpty then { st with args := splitWs args_str } else st
  else if ("URL:".data).isPrefixOf line then
    { st with url := some (trim (removeAll ("URL:".data) line)) }
  else st

/-- Parse the full `claude mcp get` output. -/
def parseGetOutput (output : Str) : GetParseState :=
  (splitOnChar '\n' output).foldl getStep initGetState

/-- Gets details for one MCP server (`mcp_get`): parse the structured text
output, then resolve the disabled flag from the project config, a failed
read of which degrades to the empty config. -/
def mcp_get (readResult : Except Str MCPProjectConfig)
    (getResult : Except Str Str) (name : Str) : Except Str MCPServer :=
  match getResult with
  | .error e => .error e
  | .ok output =>
    let st := parseGetOutput output
    let config := configOrEmpty readResult
    .ok
      { name := name
        transport := st.transport
        command := st.command
        args := st.args
        env := []
        url := st.url
        scope := st.scope
        is_active := false
        disabled := ((mapGet config.mcp_servers name).map (·.disabled)).getD false
        status := ⟨false, none, none⟩ }

/-- Argument vector and validation of `mcp_add`: the error side carries the
early validation-failure result returned when a stdio add lacks a command or
an sse add lacks a url; the ok side carries the argument vector handed to
the external `claude mcp` invocation.  The separator `--` is pushed only
when the args list is non-empty or the command contains a hyphen. -/
def addCmdArgs (name : Str) (transport : Str) (command : Option Str)
    (args : List Str) (env : List (Str × Str)) (url : Option Str)
    (scope : Str) : Except AddServerResult (List Str) :=
  let base := ("add".data) :: ("-s".data) :: scope ::
    ((if transport = "sse".data then [("--transport".data), ("sse".data)] else []) ++
      (env.map (fun p => [("-e".data), p.1 ++ '=' :: p.2])).flatten ++ [name])
  if transport = "stdio".data then
    match command with
    | some c =>
      .ok (base ++ (if !args.isEmpty || c.contains '-' then ["--".data] else []) ++
        c :: args)
    | none => .error ⟨false, "Command is required for stdio transport".data, none⟩
  else if transport = "sse".data then
    match url with
    | some u => .ok (base ++ [u])
    | none => .error ⟨false, "URL is required for SSE transport".data, none⟩
  else .ok base

/-- Adds a new MCP server (`mcp_add`): validation failures come back as an
unsuccessful result, otherwise the external command runs with the built
argument vector and its outcome is wrapped into the result. -/
def mcp_add (exec : List Str → Except Str Str) (name : Str) (transport : Str)
    (command : Option Str) (args : List Str) (env : List (Str × Str))
    (url : Option Str) (scope : Str) : AddServerResult :=
  match addCmdArgs name transport command args env url scope with
  | .error r => r
  | .ok cmd_args =>
    match exec cmd_args with
    | .ok output => ⟨true, trim output, some name⟩
    | .error e => ⟨false, e, none⟩

/-- JSON object built by the import loop for one entry: fixed stdio type,
the required command string, args defaulted to an empty array unless present
as an array, env defaulted to an empty object unless present as an object. -/
def buildImportJson (v : JsonVal) (command : Str) : JsonVal :=
  .obj
    [ ("type".data, .str ("stdio".data)),
      ("command".data, .str command),
      ("args".data, match jsonGet v ("args".data) with
        | some (.arr xs) => .arr xs
        | _ => .arr []),
      ("env".data, match jsonGet v ("env".data) with
        | some (.obj fs) => .obj fs
        | _ => .obj []) ]

/-- One iteration of the import loop on entry `(name, v)`, combining its
outcome with the result `r` of the remaining entries: a missing or
non-string command field is the missing-command failure; otherwise the
built JSON goes through the add path (the `addJson` oracle) and the
outcome is counted as imported or failed. -/
def importStep (addJson : Str → JsonVal → Except Str AddServerResult)
    (name : Str) (v : JsonVal) (r : ImportResult) : ImportResult :=
  match jsonGet v ("command".data) with
  | some (.str command) =>
    match addJson name (buildImportJson v command) with
    | .ok res =>
      if res.success then
        ⟨r.imported_count + 1, r.failed_count, ⟨name, true, none⟩ :: r.servers⟩
      else
        ⟨r.imported_count, r.failed_count + 1,
          ⟨name, false, some res.message⟩ :: r.servers⟩
    | .error e =>
      ⟨r.imported_count, r.failed_count + 1, ⟨name, false, some e⟩ :: r.servers⟩
  | _ =>
    ⟨r.imported_count, r.failed_count + 1,
      ⟨name, false, some ("Missing command field".data)⟩ :: r.servers⟩

/-- Imports MCP servers from a foreign desktop-app config
(`mcp_add_from_claude_desktop`), given the entries of its `mcpServers`
object in iteration order: the entries are processed front to back through
`importStep`, accumulating counts and recording one outcome per entry in
input order; one entry failing never aborts the remaining entries. -/
def importServers (addJson : Str → JsonVal → Except Str AddServerResult) :
    List (Str × JsonVal) → ImportResult
  | [] => ⟨0, 0, []⟩
  | (name, v) :: rest => importStep addJson name v (importServers addJson rest)

/-- Test used by the import loop: the entry has a string `command` field. -/
def hasCommandField (v : JsonVal) : Bool :=
  match jsonGet v ("command".data) with
  | some (.str _) => true
  | _ => false

/-- Per-entry outcome of the import loop in the run where every attempted
add succeeds: entries with a string command import cleanly, the others fail
with the missing-command error. -/
def importOutcomeOf (p : Str × JsonVal) : ImportServerResult :=
  if hasCommandField p.2 then ⟨p.1, true, none⟩
  else ⟨p.1, false, some ("Missing command field".data)⟩

/-- Test whether a line assigns the scope field in `getStep`: it must carry
the scope prefix and its remainder must contain one of the recognized
keywords (case-insensitively). -/
def setsScope (l : Str) : Bool :=
  ("Scope:".data).isPrefixOf (trim l) &&
    (scopeHas (trim (removeAll ("Scope:".data) (trim l))) ("local".data) ||
     scopeHas (trim (removeAll ("Scope:".data) (trim l))) ("project".data) ||
     scopeHas (trim (removeAll ("Scope:".data) (trim l))) ("user".data) ||
     scopeHas (trim (removeAll ("Scope:".data) (trim l))) ("global".data))

/-! Lemmas about the association-list model of the servers map. -/

theorem mapGet_cons (k0 : Str) (v0 : MCPServerConfig)
    (rest : List (Str × MCPServerConfig)) (k : Str) :
    mapGet ((k0, v0) :: rest) k = if k0 = k then some v0 else mapGet rest k := by
  by_cases h : k0 = k
  · unfold mapGet
    rw [List.find?_cons_of_pos _ (by simp [h])]
    simp [h]
  · unfold mapGet
    rw [List.find?_cons_of_neg _ (by simp [h])]
    simp [h]

theorem setDisabled_map_fst (m : List (Str × MCPServerConfig)) (k : Str)
    (d : Bool) : (setDisabled m k d).map Prod.fst = m.map Prod.fst := by
  induction m with
  | nil => rfl
  | cons p rest ih =>
    obtain ⟨k0, v0⟩ := p
    by_cases h : k0 = k <;> simp [setDisabled, h, ih]

theorem mapGet_setDisabled_self (m : List (Str × MCPServerConfig)) (k : Str)
    (d : Bool) (e : MCPServerConfig) (h : mapGet m k = some e) :
    mapGet (setDisabled m k d) k = some ⟨e.command, e.args, e.env, d⟩ := by
  induction m with
  | nil => simp [mapGet] at h
  | cons p rest ih =>
    obtain ⟨k0, v0⟩ := p
    by_cases hk : k0 = k
    · subst hk
      rw [mapGet_cons, if_pos rfl] at h
      injection h with h
      subst h
      simp [setDisabled, mapGet_cons]
    · rw [mapGet_cons, if_neg hk] at h
      simp [setDisabled, hk, mapGet_cons, ih h]

theorem mapGet_setDisabled_other (m : List (Str × MCPServerConfig)) (k k' : Str)
    (d : Bool) (h : k' ≠ k) :
    mapGet (setDisabled m k d) k' = mapGet m k' := by
  induction m with
  | nil => rfl
  | cons p rest ih =>
    obtain ⟨k0, v0⟩ := p
    by_cases hk : k0 = k
    · subst hk
      have h2 : k0 ≠ k' := fun hh => h hh.symm
      simp [setDisabled, mapGet_cons, h2]
    · simp [setDisabled, hk, mapGet_cons, ih]

/-- Toggling a single-entry config for that same entry only rewrites its
disabled flag. -/
theorem toggleCore_single_entry (name : Str) (e : MCPServerConfig)
    (g : Except Str Str) (d : Bool) :
    toggleCore ⟨[(name, e)]⟩ g name d
      = ⟨[(name, ⟨e.command, e.args, e.env, d⟩)]⟩ := by
  unfold toggleCore
  rw [show mapGet [(name, e)] name = some e from by rw [mapGet_cons]; simp]
  simp [setDisabled]

/-- C1: starting from a fresh (empty) project config, toggling a server to
disabled and then back to enabled yields a config whose servers map holds
exactly the one entry for that name with the disabled flag false, whatever
the two detail-lookup results were; and, with the config read and write
succeeding, neither full toggle operation returns an error. -/
theorem toggle_roundtrip_fresh (name : Str) (g1 g2 : Except Str Str) :
    ∃ e : MCPServerConfig,
      (toggleCore (toggleCore emptyConfig g1 name true) g2 name false).mcp_servers
          = [(name, e)]
        ∧ e.disabled = false
        ∧ mcp_toggle_disabled (Except.ok emptyConfig) g1
            (fun _ => Except.ok []) name true
          = Except.ok (toggleMsg name true, toggleCore emptyConfig g1 name true)
        ∧ mcp_toggle_disabled (Except.ok (toggleCore emptyConfig g1 name true)) g2
            (fun _ => Except.ok []) name false
          = Except.ok (toggleMsg name false,
              toggleCore (toggleCore emptyConfig g1 name true) g2 name false) := by
  cases g1 with
  | ok out =>
    refine ⟨⟨(parseToggleGet out).1, (parseToggleGet out).2, [], false⟩, ?_, rfl,
      rfl, rfl⟩
    have h1 : toggleCore emptyConfig (Except.ok out) name true
        = ⟨[(name, ⟨(parseToggleGet out).1, (parseToggleGet out).2, [], true⟩)]⟩ := rfl
    rw [h1, toggleCore_single_entry]
  | error err =>
    refine ⟨⟨[], [], [], false⟩, ?_, rfl, rfl, rfl⟩
    have h1 : toggleCore emptyConfig (Except.error err) name true
        = ⟨[(name, ⟨[], [], [], true⟩)]⟩ := rfl
    rw [h1, toggleCore_single_entry]

/-- C6: when the server is absent from the config map and the live detail
lookup fails, the toggle still succeeds, inserting a minimal entry with
empty command, args and env and the requested disabled value, and the full
operation (with a succeeding read and write) returns its normal message. -/
theorem toggle_missing_get_failure (config : MCPProjectConfig) (name : Str)
    (d : Bool) (err : Str) (h : mapGet config.mcp_servers name = none) :
    toggleCore config (Except.error err) name d
        = ⟨mapInsert config.mcp_servers name ⟨[], [], [], d⟩⟩
      ∧ mcp_toggle_disabled (Except.ok config) (Except.error err)
          (fun _ => Except.ok []) name d
        = Except.ok (toggleMsg name d,
            ⟨mapInsert config.mcp_servers name ⟨[], [], [], d⟩⟩) := by
  have hcore : toggleCore config (Except.error err) name d
      = ⟨mapInsert config.mcp_servers name ⟨[], [], [], d⟩⟩ := by
    unfold toggleCore
    rw [h]
  have hop : mcp_toggle_disabled (Except.ok config) (Except.error err)
      (fun _ => Except.ok []) name d
      = Except.ok (toggleMsg name d, toggleCore config (Except.error err) name d) :=
    rfl
  exact ⟨hcore, by rw [hop, hcore]⟩

/-- Witness for `toggle_missing_get_failure` at a concrete input. -/
theorem toggle_missing_get_failure_witness :
    toggleCore emptyConfig (Except.error ("boom".data)) ("srv".data) true
      = ⟨mapInsert emptyConfig.mcp_servers ("srv".data) ⟨[], [], [], true⟩⟩ :=
  (toggle_missing_get_failure emptyConfig ("srv".data) true ("boom".data)
    (by decide)).1

/-- C8: when the target name already exists in the config map, the toggle
changes only that entry's disabled flag: the entry keeps its command, args
and env, every other key maps to the same entry as before, and the key
sequence of the map is unchanged. -/
theorem toggle_existing_frame (config : MCPProjectConfig) (g : Except Str Str)
    (name : Str) (d : Bool) (e : MCPServerConfig)
    (h : mapGet config.mcp_servers name = some e) :
    mapGet (toggleCore config g name d).mcp_servers name
        = some ⟨e.command, e.args, e.env, d⟩
      ∧ (∀ k, k ≠ name → mapGet (toggleCore config g name d).mcp_servers k
          = mapGet config.mcp_servers k)
      ∧ (toggleCore config g name d).mcp_servers.map Prod.fst
          = config.mcp_servers.map Prod.fst := by
  have hcore : toggleCore config g name d
      = ⟨setDisabled config.mcp_servers name d⟩ := by
    unfold toggleCore
    rw [h]
  rw [hcore]
  exact ⟨mapGet_setDisabled_self _ _ _ _ h,
    fun k hk => mapGet_setDisabled_other _ _ _ _ hk,
    setDisabled_map_fst _ _ _⟩

/-- Witness for `toggle_existing_frame` at a concrete two-entry config. -/
theorem toggle_existing_frame_witness :
    mapGet (toggleCore ⟨[(("a".data), ⟨("c".data), [], [], false⟩),
          (("b".data), ⟨("d".data), [], [], false⟩)]⟩
        (Except.error []) ("a".data) true).mcp_servers ("a".data)
      = some ⟨("c".data), [], [], true⟩ :=
  (toggle_existing_frame
    ⟨[(("a".data), ⟨("c".data), [], [], false⟩),
      (("b".data), ⟨("d".data), [], [], false⟩)]⟩
    (Except.error []) ("a".data) true ⟨("c".data), [], [], false⟩ (by decide)).1

/-- C5: reading the sidecar config returns the empty config exactly for an
absent file, the parsed config for a present file whose JSON matches the
schema, and an error exactly for a present file that is not valid JSON
matching the schema. -/
theorem read_project_config_contract :
    mcp_read_project_config SidecarFile.absent = Except.ok ⟨[]⟩
      ∧ (∀ v c, projectConfigFromJson v = some c →
          mcp_read_project_config (SidecarFile.json v) = Except.ok c)
      ∧ (∀ v, projectConfigFromJson v = none →
          mcp_read_project_config (SidecarFile.json v)
            = Except.error ("Failed to parse .mcp.json".data))
      ∧ mcp_read_project_config SidecarFile.invalidText
          = Except.error ("Failed to parse .mcp.json".data)
      ∧ (∀ f, (∃ msg, mcp_read_project_config f = Except.error msg) ↔
          (f = SidecarFile.invalidText
            ∨ ∃ v, f = SidecarFile.json v ∧ projectConfigFromJson v = none)) := by
  refine ⟨rfl, ?_, ?_, rfl, ?_⟩
  · intro v c h
    have hstep : mcp_read_project_config (SidecarFile.json v)
        = match projectConfigFromJson v with
          | some config => Except.ok config
          | none => Except.error ("Failed to parse .mcp.json".data) := rfl
    rw [hstep, h]
  · intro v h
    have hstep : mcp_read_project_config (SidecarFile.json v)
        = match projectConfigFromJson v with
          | some config => Except.ok config
          | none => Except.error ("Failed to parse .mcp.json".data) := rfl
    rw [hstep, h]
  · intro f
    cases f with
    | absent => simp [mcp_read_project_config]
    | invalidText => simp [mcp_read_project_config]
    | json v =>
      cases hv : projectConfigFromJson v with
      | some c => simp [mcp_read_project_config, hv]
      | none => simp [mcp_read_project_config, hv]

/-- Witness for `read_project_config_contract` at concrete JSON values. -/
theorem read_project_config_contract_witness :
    mcp_read_project_config
        (SidecarFile.json (JsonVal.obj [(("mcpServers".data), JsonVal.obj [])]))
      = Except.ok ⟨[]⟩
    ∧ mcp_read_project_config (SidecarFile.json (JsonVal.obj []))
      = Except.error ("Failed to parse .mcp.json".data) :=
  ⟨read_project_config_contract.2.1
      (JsonVal.obj [(("mcpServers".data), JsonVal.obj [])]) ⟨[]⟩ (by decide),
   read_project_config_contract.2.2.1 (JsonVal.obj []) (by decide)⟩

/-- Counterexample to C4: a stdio add with an empty args list and a command
without a hyphen builds an argument vector that contains no separator
before the command. -/
theorem add_separator_not_always_counterexample :
    addCmdArgs ("srv".data) ("stdio".data) (some ("node".data)) [] [] none
        ("local".data)
      = Except.ok [("add".data), ("-s".data), ("local".data), ("srv".data),
          ("node".data)]
    ∧ ¬ (("--".data) ∈ [("add".data), ("-s".data), ("local".data),
          ("srv".data), ("node".data)]) := by
  constructor
  · decide
  · decide

/-- C4 (amended): for a stdio add with a present command, the argument
vector is add, the scope flag and scope, one flag-value pair per env entry,
the name, then the command and its args, with the separator inserted
between name and command exactly when the args list is non-empty or the
command contains a hyphen. -/
theorem add_stdio_arg_vector (name command : Str) (args : List Str)
    (env : List (Str × Str)) (url : Option Str) (scope : Str) :
    addCmdArgs name ("stdio".data) (some command) args env url scope
      = Except.ok ((("add".data) :: ("-s".data) :: scope ::
            ((env.map (fun p => [("-e".data), p.1 ++ '=' :: p.2])).flatten
              ++ [name]))
          ++ (if !args.isEmpty || command.contains '-' then [("--".data)] else [])
          ++ command :: args) := by
  simp [addCmdArgs]

/-! Lemmas for the import loop. -/

theorem countP_add_countP_not {α : Type _} (p : α → Bool) (l : List α) :
    l.countP p + l.countP (fun a => !p a) = l.length := by
  induction l with
  | nil => rfl
  | cons a l ih => by_cases hp : p a <;> (simp [List.countP_cons, hp]; omega)

theorem hasCommandField_iff (v : JsonVal) :
    hasCommandField v = true ↔
      ∃ s, jsonGet v ("command".data) = some (JsonVal.str s) := by
  unfold hasCommandField
  cases hv : jsonGet v ("command".data) with
  | none => simp
  | some j => cases j <;> simp

theorem importServers_cons_no_cmd (addJson : Str → JsonVal → Except Str AddServerResult)
    (name : Str) (v : JsonVal) (rest : List (Str × JsonVal))
    (h : hasCommandField v = false) :
    importServers addJson ((name, v) :: rest)
      = ⟨(importServers addJson rest).imported_count,
         (importServers addJson rest).failed_count + 1,
         ⟨name, false, some ("Missing command field".data)⟩ ::
           (importServers addJson rest).servers⟩ := by
  show importStep addJson name v (importServers addJson rest) = _
  unfold importStep
  cases hv : jsonGet v ("command".data) with
  | none => rfl
  | some j =>
    cases j with
    | str s =>
      exfalso
      unfold hasCommandField at h
      rw [hv] at h
      simp at h
    | null => rfl
    | bool b => rfl
    | num n => rfl
    | arr xs => rfl
    | obj fs => rfl

theorem importServers_cons_cmd_ok (addJson : Str → JsonVal → Except Str AddServerResult)
    (name : Str) (v : JsonVal) (rest : List (Str × JsonVal)) (command : Str)
    (res : AddServerResult)
    (hv : jsonGet v ("command".data) = some (JsonVal.str command))
    (hres : addJson name (buildImportJson v command) = Except.ok res)
    (hsucc : res.success = true) :
    importServers addJson ((name, v) :: rest)
      = ⟨(importServers addJson rest).imported_count + 1,
         (importServers addJson rest).failed_count,
         ⟨name, true, none⟩ :: (importServers addJson rest).servers⟩ := by
  show importStep addJson name v (importServers addJson rest) = _
  unfold importStep
  rw [hv]
  dsimp only
  rw [hres]
  simp [hsucc]

/-- Outcome of the whole import loop in a run where every attempted add
succeeds: the counts are exactly the number of entries with and without a
string command field, and the outcome list maps the entries in input
order. -/
theorem importServers_all_ok (addJson : Str → JsonVal → Except Str AddServerResult)
    (entries : List (Str × JsonVal))
    (h : ∀ name v command, (name, v) ∈ entries →
      jsonGet v ("command".data) = some (JsonVal.str command) →
      ∃ res, addJson name (buildImportJson v command) = Except.ok res
        ∧ res.success = true) :
    importServers addJson entries
      = ⟨entries.countP (fun p => hasCommandField p.2),
         entries.countP (fun p => !hasCommandField p.2),
         entries.map importOutcomeOf⟩ := by
  induction entries with
  | nil => rfl
  | cons p rest ih =>
    obtain ⟨name, v⟩ := p
    have hrest := ih (fun n w c hm hc => h n w c (List.mem_cons_of_mem _ hm) hc)
    by_cases hcf : hasCommandField v = true
    · obtain ⟨command, hv⟩ := (hasCommandField_iff v).1 hcf
      obtain ⟨res, hres, hsucc⟩ := h name v command (List.mem_cons_self _ _) hv
      rw [importServers_cons_cmd_ok addJson name v rest command res hv hres hsucc,
        hrest]
      simp [List.countP_cons, hcf, importOutcomeOf]
    · have hcf2 : hasCommandField v = false := by simpa using hcf
      rw [importServers_cons_no_cmd addJson name v rest hcf2, hrest]
      simp [List.countP_cons, hcf2, importOutcomeOf]

/-- C7: an import source with four entries of which three have a string
command field (and every attempted add succeeds) yields three imported, one
failed, and one outcome record per entry in input order; the entry missing
its command is recorded as the missing-command failure and does not abort
the rest. -/
theorem import_three_valid_one_missing
    (addJson : Str → JsonVal → Except Str AddServerResult)
    (entries : List (Str × JsonVal))
    (hlen : entries.length = 4)
    (hcount : entries.countP (fun p => hasCommandField p.2) = 3)
    (h : ∀ name v command, (name, v) ∈ entries →
      jsonGet v ("command".data) = some (JsonVal.str command) →
      ∃ res, addJson name (buildImportJson v command) = Except.ok res
        ∧ res.success = true) :
    importServers addJson entries = ⟨3, 1, entries.map importOutcomeOf⟩
      ∧ (importServers addJson entries).servers.length = 4
      ∧ (∀ name v, (name, v) ∈ entries → hasCommandField v = false →
          ImportServerResult.mk name false (some ("Missing command field".data))
            ∈ (importServers addJson entries).servers) := by
  have hmain := importServers_all_ok addJson entries h
  have hfail : entries.countP (fun p => !hasCommandField p.2) = 1 := by
    have := countP_add_countP_not (fun p => hasCommandField p.2) entries
    omega
  have hres : importServers addJson entries = ⟨3, 1, entries.map importOutcomeOf⟩ := by
    rw [hmain, hcount, hfail]
  refine ⟨hres, ?_, ?_⟩
  · rw [hres]
    simp [hlen]
  · intro name v hm hcf
    have houtcome : importOutcomeOf (name, v)
        = ⟨name, false, some ("Missing command field".data)⟩ := by
      simp [importOutcomeOf, hcf]
    rw [hres]
    exact houtcome ▸ List.mem_map_of_mem importOutcomeOf hm

/-- Witness for `import_three_valid_one_missing` on a concrete four-entry
source with an always-succeeding add oracle. -/
theorem import_three_valid_one_missing_witness :
    importServers (fun _ _ => Except.ok ⟨true, [], none⟩)
        [ (("a".data), JsonVal.obj [(("command".data), JsonVal.str ("x".data))]),
          (("b".data), JsonVal.obj [(("command".data), JsonVal.str ("y".data))]),
          (("c".data), JsonVal.obj [(("command".data), JsonVal.str ("z".data))]),
          (("d".data), JsonVal.obj []) ]
      = ⟨3, 1,
          [⟨("a".data), true, none⟩, ⟨("b".data), true, none⟩,
            ⟨("c".data), true, none⟩,
            ⟨("d".data), false, some ("Missing command field".data)⟩]⟩ := by
  have h := import_three_valid_one_missing (fun _ _ => Except.ok ⟨true, [], none⟩)
    [ (("a".data), JsonVal.obj [(("command".data), JsonVal.str ("x".data))]),
      (("b".data), JsonVal.obj [(("command".data), JsonVal.str ("y".data))]),
      (("c".data), JsonVal.obj [(("command".data), JsonVal.str ("z".data))]),
      (("d".data), JsonVal.obj []) ]
    (by decide) (by decide)
    (fun name v command hm hc => ⟨⟨true, [], none⟩, rfl, rfl⟩)
  rw [h.1]
  decide

/-! Lemmas about the list parser. -/

theorem collectContinuation_all_fold (ls : List Str)
    (h : ∀ l ∈ ls, breaksContinuation l = false) :
    collectContinuation ls = (ls.map trim, []) := by
  induction ls with
  | nil => rfl
  | cons l ls ih =>
    have h1 : breaksContinuation l = false := h l (List.mem_cons_self _ _)
    have ih2 := ih (fun x hx => h x (List.mem_cons_of_mem _ hx))
    simp [collectContinuation, h1, ih2]

theorem parseListLinesAux_single (config : MCPProjectConfig) (fuel : Nat)
    (start : Str) (conts : List Str) (name after : Str)
    (hstart : startsRecord start = some (name, after))
    (hconts : ∀ l ∈ conts, breaksContinuation l = false) :
    parseListLinesAux config (fuel + 1) (start :: conts)
      = [listRecord config name (joinSpace (trim after :: conts.map trim))] := by
  unfold parseListLinesAux
  rw [hstart]
  dsimp only
  rw [collectContinuation_all_fold conts hconts]
  dsimp only
  rw [show parseListLinesAux config fuel [] = [] from by cases fuel <;> rfl]

theorem parseListLines_single_record (config : MCPProjectConfig) (start : Str)
    (conts : List Str) (name after : Str)
    (hstart : startsRecord start = some (name, after))
    (hconts : ∀ l ∈ conts, breaksContinuation l = false) :
    parseListLines config (start :: conts)
      = [listRecord config name (joinSpace (trim after :: conts.map trim))] := by
  unfold parseListLines
  simp only [List.length_cons]
  exact parseListLinesAux_single config conts.length start conts name after
    hstart hconts

/-- C2 (amended): a record start line followed by continuation lines none of
which qualifies as a record start parses to exactly one record whose command
is the trimmed fragments joined in order with a single space each; in
particular the two-line example parses to one record named foo with command
joined by single spaces. -/
theorem list_multiline_fold :
    (∀ config start conts name after,
      startsRecord start = some (name, after) →
      (∀ l ∈ conts, breaksContinuation l = false) →
      parseListLines config (start :: conts)
        = [listRecord config name (joinSpace (trim after :: conts.map trim))])
    ∧ mcp_list (Except.ok emptyConfig)
        (Except.ok ("foo: run server.js\n  --port 3000".data))
      = Except.ok [listRecord emptyConfig ("foo".data)
          ("run server.js --port 3000".data)] := by
  constructor
  · intro config start conts name after hstart hconts
    exact parseListLines_single_record config start conts name after hstart hconts
  · decide

/-- Witness for `list_multiline_fold` at the concrete two-line record. -/
theorem list_multiline_fold_witness :
    parseListLines emptyConfig
        [("foo: run server.js".data), ("  --port 3000".data)]
      = [listRecord emptyConfig ("foo".data)
          (joinSpace (trim (" run server.js".data) ::
            [("  --port 3000".data)].map trim))] :=
  list_multiline_fold.1 emptyConfig ("foo: run server.js".data)
    [("  --port 3000".data)] ("foo".data) (" run server.js".data)
    (by decide) (by decide)

/-- Counterexample to the literal expected command of C2: the two-line
example yields the command joined with single spaces, which differs from
the triple-spaced command text stated in the spec. -/
theorem list_example_spacing_counterexample :
    mcp_list (Except.ok emptyConfig)
        (Except.ok ("foo: run server.js\n  --port 3000".data))
      = Except.ok [listRecord emptyConfig ("foo".data)
          ("run server.js --port 3000".data)]
    ∧ ("run server.js --port 3000".data) ≠ ("run server.js   --port 3000".data) := by
  constructor
  · decide
  · decide

/-- Counterexample to C3: a line starting with a colon is accepted as a
record start by the outer scan, so the parser can output a record whose
name is empty. -/
theorem list_empty_name_counterexample :
    mcp_list (Except.ok emptyConfig) (Except.ok (": bar".data))
      = Except.ok [listRecord emptyConfig [] ("bar".data)]
    ∧ (listRecord emptyConfig [] ("bar".data)).name = [] := by
  constructor
  · decide
  · rfl

/-- C3 (amended): a line whose trimmed text before its first colon is empty
never ends the folding of a continuation run (it is folded into the current
command as a continuation line); only the inner continuation-break test
rejects empty names, so such a line can still start a record at the outer
scan. -/
theorem empty_name_not_continuation_break :
    (∀ line pre post, splitAtFirstColon line = some (pre, post) →
      trim pre = [] → breaksContinuation line = false)
    ∧ (∀ line pre post ls, splitAtFirstColon line = some (pre, post) →
      trim pre = [] →
      collectContinuation (line :: ls)
        = (trim line :: (collectContinuation ls).1, (collectContinuation ls).2)) := by
  have hbc : ∀ line pre post, splitAtFirstColon line = some (pre, post) →
      trim pre = [] → breaksContinuation line = false := by
    intro line pre post hsplit htrim
    unfold breaksContinuation
    rw [hsplit]
    dsimp only
    rw [htrim]
    rfl
  refine ⟨hbc, ?_⟩
  intro line pre post ls hsplit htrim
  simp [collectContinuation, hbc line pre post hsplit htrim]

/-- Witness for `empty_name_not_continuation_break` at a concrete line. -/
theorem empty_name_not_continuation_break_witness :
    breaksContinuation (": bar".data) = false :=
  empty_name_not_continuation_break.1 (": bar".data) [] (" bar".data)
    (by decide) (by decide)

/-! Lemmas about the detail parser. -/

theorem setsScope_of_not_prefixed (l : Str)
    (h : ("Scope:".data).isPrefixOf (trim l) = false) : setsScope l = false := by
  unfold setsScope
  rw [h]
  rfl

theorem getStep_scope_invariant (st : GetParseState) (l : Str)
    (h : setsScope l = false) : (getStep st l).scope = st.scope := by
  unfold setsScope at h
  simp only [getStep]
  split_ifs <;> first | rfl | simp_all

theorem getStep_command_invariant (st : GetParseState) (l : Str)
    (h : ("Command:".data).isPrefixOf (trim l) = false) :
    (getStep st l).command = st.command := by
  simp only [getStep]
  split_ifs <;> first | rfl | simp_all

theorem getStep_scope_user_line (st : GetParseState) :
    getStep st ("Scope: User config".data) = { st with scope := ("user".data) } :=
  rfl

theorem getStep_command_node_line (st : GetParseState) :
    getStep st ("Command: node index.js".data)
      = { st with command := some ("node index.js".data) } := rfl

theorem foldl_scope_invariant (ls : List Str) (st : GetParseState)
    (h : ∀ l ∈ ls, setsScope l = false) :
    (ls.foldl getStep st).scope = st.scope := by
  induction ls generalizing st with
  | nil => rfl
  | cons l ls ih =>
    rw [List.foldl_cons,
      ih (getStep st l) (fun x hx => h x (List.mem_cons_of_mem _ hx))]
    exact getStep_scope_invariant st l (h l (List.mem_cons_self _ _))

theorem foldl_command_invariant (ls : List Str) (st : GetParseState)
    (h : ∀ l ∈ ls, ("Command:".data).isPrefixOf (trim l) = false) :
    (ls.foldl getStep st).command = st.command := by
  induction ls generalizing st with
  | nil => rfl
  | cons l ls ih =>
    rw [List.foldl_cons,
      ih (getStep st l) (fun x hx => h x (List.mem_cons_of_mem _ hx))]
    exact getStep_command_invariant st l (h l (List.mem_cons_self _ _))

/-- C9 (amended): in a detail block whose only scope or command lines are
one line reading Scope: User config and one line reading Command: node
index.js (in that order, anything else around them), the parser state ends
with scope user and that command; when no line of the block sets the scope,
the scope keeps its default local; and the concrete two-line block parses
to scope user with that command. -/
theorem get_scope_command_parse :
    (∀ pre mid post : List Str,
      (∀ l ∈ mid ++ post, ("Scope:".data).isPrefixOf (trim l) = false
        ∧ ("Command:".data).isPrefixOf (trim l) = false) →
      ((pre ++ ("Scope: User config".data) :: mid
          ++ ("Command: node index.js".data) :: post).foldl getStep
            initGetState).scope = ("user".data)
      ∧ ((pre ++ ("Scope: User config".data) :: mid
          ++ ("Command: node index.js".data) :: post).foldl getStep
            initGetState).command = some ("node index.js".data))
    ∧ (∀ lines : List Str, (∀ l ∈ lines, setsScope l = false) →
        (lines.foldl getStep initGetState).scope = ("local".data))
    ∧ (parseGetOutput ("Scope: User config\nCommand: node index.js".data)).scope
        = ("user".data)
    ∧ (parseGetOutput ("Scope: User config\nCommand: node index.js".data)).command
        = some ("node index.js".data) := by
  refine ⟨?_, ?_, by decide, by decide⟩
  · intro pre mid post h
    have hmidS : ∀ l ∈ mid, setsScope l = false := fun l hl =>
      setsScope_of_not_prefixed l (h l (List.mem_append_left _ hl)).1
    have hpostS : ∀ l ∈ post, setsScope l = false := fun l hl =>
      setsScope_of_not_prefixed l (h l (List.mem_append_right _ hl)).1
    have hpostC : ∀ l ∈ post, ("Command:".data).isPrefixOf (trim l) = false :=
      fun l hl => (h l (List.mem_append_right _ hl)).2
    rw [List.foldl_append, List.foldl_cons, List.foldl_append, List.foldl_cons]
    constructor
    · rw [foldl_scope_invariant post _ hpostS,
        getStep_scope_invariant _ _ (setsScope_of_not_prefixed _ (by decide)),
        foldl_scope_invariant mid _ hmidS, getStep_scope_user_line]
    · rw [foldl_command_invariant post _ hpostC, getStep_command_node_line]
  · intro lines h
    rw [foldl_scope_invariant lines initGetState h]
    rfl

/-- Witness for `get_scope_command_parse` with empty surroundings. -/
theorem get_scope_command_parse_witness :
    (([] ++ ("Scope: User config".data) :: []
        ++ ("Command: node index.js".data) :: []).foldl getStep
          initGetState).scope = ("user".data) :=
  (get_scope_command_parse.1 [] [] [] (by decide)).1

/-- Counterexample to C9 as universally stated: a block containing both the
scope line and the command line, plus a later command line, parses to a
different command. -/
theorem get_scope_command_counterexample :
    ((splitOnChar '\n'
        ("Scope: User config\nCommand: node index.js\nCommand: other".data)).contains
      ("Scope: User config".data) = true)
    ∧ ((splitOnChar '\n'
        ("Scope: User config\nCommand: node index.js\nCommand: other".data)).contains
      ("Command: node index.js".data) = true)
    ∧ (parseGetOutput
        ("Scope: User config\nCommand: node index.js\nCommand: other".data)).command
      = some ("other".data)
    ∧ some ("other".data) ≠ some ("node index.js".data) := by
  refine ⟨by decide, by decide, by decide, by decide⟩

/-! Lemmas for the degradation of config-read failures. -/

theorem listRecord_empty_disabled (name cmd : Str) :
    (listRecord emptyConfig name cmd).disabled = false := rfl

theorem parseListLinesAux_all_disabled_false (fuel : Nat) (lines : List Str) :
    (parseListLinesAux emptyConfig fuel lines).all (fun s => !s.disabled) = true := by
  induction fuel generalizing lines with
  | zero => cases lines <;> rfl
  | succ fuel ih =>
    cases lines with
    | nil => rfl
    | cons l ls =>
      cases hs : startsRecord l with
      | none =>
        have hstep : parseListLinesAux emptyConfig (fuel + 1) (l :: ls)
            = parseListLinesAux emptyConfig fuel ls := by
          conv_lhs => rw [parseListLinesAux]
          rw [hs]
        rw [hstep]
        exact ih ls
      | some nameAfter =>
        have hstep : parseListLinesAux emptyConfig (fuel + 1) (l :: ls)
            = listRecord emptyConfig nameAfter.1
                (joinSpace (trim nameAfter.2 :: (collectContinuation ls).1)) ::
              parseListLinesAux emptyConfig fuel (collectContinuation ls).2 := by
          conv_lhs => rw [parseListLinesAux]
          rw [hs]
        rw [hstep]
        simp [List.all_cons, listRecord_empty_disabled, ih]

/-- C10: a failed read of the sidecar config never fails the list or get
operations: the failure is silently replaced by the empty config, and every
record returned in that situation carries disabled = false. -/
theorem config_read_error_degrades :
    (∀ readErr listResult, mcp_list (Except.error readErr) listResult
        = mcp_list (Except.ok emptyConfig) listResult)
    ∧ (∀ readErr output, ∃ servers,
        mcp_list (Except.error readErr) (Except.ok output) = Except.ok servers
          ∧ servers.all (fun s => !s.disabled) = true)
    ∧ (∀ readErr getResult name,
        mcp_get (Except.error readErr) getResult name
          = mcp_get (Except.ok emptyConfig) getResult name)
    ∧ (∀ readErr output name, ∃ s,
        mcp_get (Except.error readErr) (Except.ok output) name = Except.ok s
          ∧ s.disabled = false) := by
  refine ⟨?_, ?_, ?_, ?_⟩
  · intro readErr listResult
    cases listResult <;> rfl
  · intro readErr output
    by_cases hsent : (containsSub ("No MCP servers configured".data)
        (trim output) || (trim output).isEmpty) = true
    · refine ⟨[], ?_, rfl⟩
      unfold mcp_list
      dsimp only
      rw [if_pos hsent]
    · refine ⟨parseListLines emptyConfig (splitOnChar '\n' (trim output)), ?_, ?_⟩
      · unfold mcp_list
        dsimp only
        rw [if_neg hsent]
        rfl
      · exact parseListLinesAux_all_disabled_false _ _
  · intro readErr getResult name
    cases getResult <;> rfl
  · intro readErr output name
    exact ⟨_, rfl, rfl⟩

end Mcp
